import Mathlib

/-!
Verification of the filter/query-translation layer of
`faraday/server/api/modules/vulns.py` (class `VulnerabilityView`).

The Python code is shallowly embedded: every dict-shaped value becomes a
structure, the filter tree becomes an inductive type, ORM queries become
lists of rows, and the externally-owned collaborators (the generic
filter-tree translator `search`, marshmallow parsing, the grouped
aggregation `get_filtered_data`) become function parameters.
-/

/-! ## Filter tree data model

A leaf predicate is the dict `{name, op, val, field?}` of the filter
query language.  `val` is carried opaquely (the rewriter never inspects
it), and `field` is optional; Python's truthiness test `if otherfield:`
treats an empty string like an absent key, which the embedding keeps. -/

structure LeafPred where
  name : String
  op : String
  val : String
  field : Option String
deriving DecidableEq, Repr

/-- A node of the filter tree: a leaf predicate or an `and`/`or` group
holding a list of child nodes (`{"and": [...]}` / `{"or": [...]}`). -/
inductive Node where
  | leaf : LeafPred → Node
  | andN : List Node → Node
  | orN : List Node → Node

/-- Python truthiness of the `field` entry: `if otherfield:` drops both an
absent key and an empty string. -/
def normalizeField : Option String → Option String
  | none => none
  | some f => if f = "" then none else some f

/-- The leaf dict rebuilt by `_hostname_filters`: it reassembles
`{"name":..., "op":..., "val":...}` and re-adds `field` only when truthy. -/
def rebuildLeaf (l : LeafPred) : LeafPred :=
  { name := l.name, op := l.op, val := l.val, field := normalizeField l.field }

/-- Embedding of `VulnerabilityView._hostname_filters`
(vulns.py lines 800-832): walk the list of filter nodes, extract every
leaf named `hostnames` into the second component, rebuild the rest;
an `or`/`and` group is recursed into and re-emitted only when its
rewritten child list is non-empty (`if or_filters:` / `if and_filters:`). -/
def hostname_filters : List Node → List Node × List LeafPred
  | [] => ([], [])
  | .leaf l :: rest =>
    let tailRes := hostname_filters rest
    if l.name = "hostnames" then (tailRes.1, rebuildLeaf l :: tailRes.2)
    else (.leaf (rebuildLeaf l) :: tailRes.1, tailRes.2)
  | .orN cs :: rest =>
    let inner := hostname_filters cs
    let tailRes := hostname_filters rest
    ((if inner.1.isEmpty then tailRes.1 else .orN inner.1 :: tailRes.1),
      inner.2 ++ tailRes.2)
  | .andN cs :: rest =>
    let inner := hostname_filters cs
    let tailRes := hostname_filters rest
    ((if inner.1.isEmpty then tailRes.1 else .andN inner.1 :: tailRes.1),
      inner.2 ++ tailRes.2)

/-! ### Specification-side definitions for the rewriter

These two functions follow the WORDS of the spec ("extracting every leaf
predicate whose field name is `hostnames` into a side list, while
rebuilding the remaining tree with `and`/`or` structure preserved exactly
(empty branches omitted)"), to be compared with the embedding above. -/

/-- Spec-side scrub: the tree with every `hostnames` leaf removed, shape
and order of everything else preserved, empty `and`/`or` branches
omitted. -/
def scrubHostnames : List Node → List Node
  | [] => []
  | .leaf l :: rest =>
    if l.name = "hostnames" then scrubHostnames rest
    else .leaf l :: scrubHostnames rest
  | .orN cs :: rest =>
    let inner := scrubHostnames cs
    if inner.isEmpty then scrubHostnames rest else .orN inner :: scrubHostnames rest
  | .andN cs :: rest =>
    let inner := scrubHostnames cs
    if inner.isEmpty then scrubHostnames rest else .andN inner :: scrubHostnames rest

/-- Spec-side collection: the `hostnames` leaves of the tree, in
left-to-right traversal order (each occurrence listed exactly once). -/
def hostnameLeaves : List Node → List LeafPred
  | [] => []
  | .leaf l :: rest =>
    if l.name = "hostnames" then l :: hostnameLeaves rest else hostnameLeaves rest
  | .orN cs :: rest => hostnameLeaves cs ++ hostnameLeaves rest
  | .andN cs :: rest => hostnameLeaves cs ++ hostnameLeaves rest

/-- Well-formedness of a tree for the rewriter: no leaf carries an empty
string as its optional `field` (Python's falsy string, which the dict
rebuild silently drops, altering the leaf). -/
def wfTree : List Node → Bool
  | [] => true
  | .leaf l :: rest => (l.field != some "") && wfTree rest
  | .orN cs :: rest => wfTree cs && wfTree rest
  | .andN cs :: rest => wfTree cs && wfTree rest

/-- True when the tree contains no `and`/`or` group with an empty child
list at any depth (such a group is silently dropped by the rewriter). -/
def noEmptyGroups : List Node → Bool
  | [] => true
  | .leaf _ :: rest => noEmptyGroups rest
  | .orN cs :: rest => (!cs.isEmpty) && noEmptyGroups cs && noEmptyGroups rest
  | .andN cs :: rest => (!cs.isEmpty) && noEmptyGroups cs && noEmptyGroups rest

lemma rebuildLeaf_eq_self {l : LeafPred} (h : l.field ≠ some "") :
    rebuildLeaf l = l := by
  cases l with
  | mk n o v f =>
    cases f with
    | none => rfl
    | some s =>
      have hs : s ≠ "" := fun hh => h (by rw [hh])
      simp [rebuildLeaf, normalizeField, hs]

/-- Under well-formedness, the embedding coincides with the spec-side
scrub-and-collect pair. -/
lemma hostname_filters_eq_spec (T : List Node) (hwf : wfTree T = true) :
    hostname_filters T = (scrubHostnames T, hostnameLeaves T) := by
  induction T using hostname_filters.induct with
  | case1 => simp [hostname_filters, scrubHostnames, hostnameLeaves]
  | case2 l rest hname ih =>
    simp only [wfTree, Bool.and_eq_true, bne_iff_ne, ne_eq] at hwf
    simp [hostname_filters, scrubHostnames, hostnameLeaves, hname,
      ih hwf.2, rebuildLeaf_eq_self hwf.1]
  | case3 l rest hname ih =>
    simp only [wfTree, Bool.and_eq_true, bne_iff_ne, ne_eq] at hwf
    simp [hostname_filters, scrubHostnames, hostnameLeaves, hname,
      ih hwf.2, rebuildLeaf_eq_self hwf.1]
  | case4 cs rest ihcs ihrest =>
    simp only [wfTree, Bool.and_eq_true] at hwf
    simp only [hostname_filters, scrubHostnames, hostnameLeaves]
    rw [ihcs hwf.1, ihrest hwf.2]
  | case5 cs rest ihcs ihrest =>
    simp only [wfTree, Bool.and_eq_true] at hwf
    simp only [hostname_filters, scrubHostnames, hostnameLeaves]
    rw [ihcs hwf.1, ihrest hwf.2]

/-- The scrubbed tree contains no `hostnames` leaf. -/
lemma hostnameLeaves_scrub (T : List Node) :
    hostnameLeaves (scrubHostnames T) = [] := by
  induction T using hostname_filters.induct with
  | case1 => simp [scrubHostnames, hostnameLeaves]
  | case2 l rest hname ih => simp [scrubHostnames, hname, ih]
  | case3 l rest hname ih => simp [scrubHostnames, hostnameLeaves, hname, ih]
  | case4 cs rest ihcs ihrest =>
    simp only [scrubHostnames]
    split
    · exact ihrest
    · simp [hostnameLeaves, ihcs, ihrest]
  | case5 cs rest ihcs ihrest =>
    simp only [scrubHostnames]
    split
    · exact ihrest
    · simp [hostnameLeaves, ihcs, ihrest]

/-- A tree without `hostnames` leaves and without empty groups is left
untouched by the scrub. -/
lemma scrubHostnames_eq_self (T : List Node) (hleaves : hostnameLeaves T = [])
    (hne : noEmptyGroups T = true) : scrubHostnames T = T := by
  induction T using hostname_filters.induct with
  | case1 => simp [scrubHostnames]
  | case2 l rest hname ih =>
    simp [hostnameLeaves, hname] at hleaves
  | case3 l rest hname ih =>
    simp only [hostnameLeaves, hname, if_false] at hleaves
    simp only [noEmptyGroups] at hne
    simp [scrubHostnames, hname, ih hleaves hne]
  | case4 cs rest ihcs ihrest =>
    simp only [hostnameLeaves, List.append_eq_nil] at hleaves
    simp only [noEmptyGroups, Bool.and_eq_true, Bool.not_eq_true'] at hne
    have hcs := ihcs hleaves.1 hne.1.2
    have hcne : cs ≠ [] := by
      intro hc; subst hc; simp at hne
    have hempty : (scrubHostnames cs).isEmpty = false := by
      rw [hcs]; exact hne.1.1
    simp [scrubHostnames, hcs, hempty, hcne, ihrest hleaves.2 hne.2]
  | case5 cs rest ihcs ihrest =>
    simp only [hostnameLeaves, List.append_eq_nil] at hleaves
    simp only [noEmptyGroups, Bool.and_eq_true, Bool.not_eq_true'] at hne
    have hcs := ihcs hleaves.1 hne.1.2
    have hcne : cs ≠ [] := by
      intro hc; subst hc; simp at hne
    have hempty : (scrubHostnames cs).isEmpty = false := by
      rw [hcs]; exact hne.1.1
    simp [scrubHostnames, hcs, hempty, hcne, ihrest hleaves.2 hne.2]

/-- C1 (amended). For every well-formed filter tree (no leaf carries an
empty-string `field`), `_hostname_filters` returns exactly the spec-side
pair: the tree scrubbed of `hostnames` leaves (shape and leaf order
preserved, empty branches omitted) together with the in-order list of
extracted `hostnames` leaves; the scrubbed tree contains no `hostnames`
leaf; a tree with no `hostnames` leaf and no empty `and`/`or` group is
returned unchanged with an empty extraction list; and the spec's worked
example evaluates as stated. -/
theorem hostnameFilters_refines :
    (∀ T : List Node, wfTree T = true →
      hostname_filters T = (scrubHostnames T, hostnameLeaves T)
      ∧ hostnameLeaves (scrubHostnames T) = []
      ∧ (hostnameLeaves T = [] → noEmptyGroups T = true →
          hostname_filters T = (T, [])))
    ∧ hostname_filters
        [.orN [.leaf ⟨"hostnames", "==", "a.com", none⟩,
               .andN [.leaf ⟨"severity", "==", "high", none⟩]]]
      = ([.orN [.andN [.leaf ⟨"severity", "==", "high", none⟩]]],
         [⟨"hostnames", "==", "a.com", none⟩]) := by
  constructor
  · intro T hwf
    refine ⟨hostname_filters_eq_spec T hwf, hostnameLeaves_scrub T, ?_⟩
    intro hleaves hne
    rw [hostname_filters_eq_spec T hwf, scrubHostnames_eq_self T hleaves hne,
      hleaves]
  · simp [hostname_filters, rebuildLeaf, normalizeField]

/-- C1 witness: the amended statement applied at the spec's worked
example, whose hypotheses hold concretely. -/
theorem hostnameFilters_refines_witness :
    hostname_filters
        [.orN [.leaf ⟨"hostnames", "==", "a.com", none⟩,
               .andN [.leaf ⟨"severity", "==", "high", none⟩]]]
      = (scrubHostnames
          [.orN [.leaf ⟨"hostnames", "==", "a.com", none⟩,
                 .andN [.leaf ⟨"severity", "==", "high", none⟩]]],
         hostnameLeaves
          [.orN [.leaf ⟨"hostnames", "==", "a.com", none⟩,
                 .andN [.leaf ⟨"severity", "==", "high", none⟩]]]) :=
  (hostnameFilters_refines.1
    [.orN [.leaf ⟨"hostnames", "==", "a.com", none⟩,
           .andN [.leaf ⟨"severity", "==", "high", none⟩]]]
    (by simp [wfTree])).1

/-- C1 counterexample. The claim as stated fails on the code at two
explicit inputs: the tree `[{"or": []}]` contains no `hostnames` leaf yet
`_hostname_filters` drops the empty group instead of being a no-op, and a
leaf carrying `"field": ""` has its `field` entry silently dropped by the
dict rebuild, so the returned tree is not the input tree. -/
theorem hostnameFilters_claim_counterexample :
    hostname_filters [Node.orN []] = ([], [])
    ∧ ([] : List Node) ≠ [Node.orN []]
    ∧ hostname_filters [Node.leaf ⟨"severity", "==", "high", some ""⟩]
      = ([Node.leaf ⟨"severity", "==", "high", none⟩], [])
    ∧ ([Node.leaf ⟨"severity", "==", "high", none⟩] : List Node)
      ≠ [Node.leaf ⟨"severity", "==", "high", some ""⟩] := by
  refine ⟨by simp [hostname_filters], by simp, ?_, ?_⟩
  · simp [hostname_filters, rebuildLeaf, normalizeField]
  · intro h
    have := List.head_eq_of_cons_eq h
    simp at this

/-! ## Relational model

Rows of the tables touched by the query synthesizer.  An ORM query is
modelled as the list of entity rows it returns (with multiplicity, as a
SQL join produces); `union` is SQL UNION, i.e. distinct rows. -/

structure VulnRow where
  id : Nat
  workspace_id : Nat
  host_id : Option Nat
  service_id : Option Nat
  severity : String
  vname : String
  attachments : List String
deriving DecidableEq, Repr

structure HostRow where
  id : Nat
  os : String
deriving DecidableEq, Repr

structure ServiceRow where
  id : Nat
  host_id : Nat
deriving DecidableEq, Repr

structure HostnameRow where
  id : Nat
  host_id : Nat
  name : String
deriving DecidableEq, Repr

structure DB where
  vulns : List VulnRow
  hosts : List HostRow
  services : List ServiceRow
  hostnames : List HostnameRow

/-- The filter payload dict: the node list under `filters` plus the three
top-level scalar keys (`group_by`, `limit`, `offset`); an absent key is
`none`, and an absent `filters` key behaves as `[]` (`.get('filters', [])`). -/
structure FiltersDict where
  filters : List Node
  group_by : Option String
  limit : Option Nat
  offset : Option Nat

/-- The `name` entry of a node dict: group nodes have no `name` key, so
`search_filter.get('name')` yields `None` for them. -/
def nodeName : Node → Option String
  | .leaf l => some l.name
  | .andN _ => none
  | .orN _ => none

/-- The `val` entry of a node dict; only leaves carry one (the code only
reads it from nodes already known to be `host__os` leaves). -/
def nodeVal : Node → String
  | .leaf l => l.val
  | .andN _ => ""
  | .orN _ => ""

/-- The OR-combination `or_(*[Hostname.name == f['val'] ...])` built over
the extracted hostname predicates. -/
def hostnameOrMatch (hfs : List LeafPred) (hn : HostnameRow) : Bool :=
  hfs.any (fun f => hn.name == f.val)

/-- `vulns.join(Host).join(Hostname).filter(or_(*or_filters))`: the
vulnerability entity rows reached directly through their host, one row
per matching (host, hostname) pair. -/
def joinHostHostname (db : DB) (vs : List VulnRow) (p : HostnameRow → Bool) :
    List VulnRow :=
  vs.bind fun v =>
    (db.hosts.filter (fun h => v.host_id == some h.id)).bind fun h =>
      (db.hostnames.filter (fun hn => hn.host_id == h.id && p hn)).map fun _ => v

/-- `vulns.join(Service).join(Host).join(Hostname).filter(or_(*or_filters))`:
the vulnerability entity rows reached through service → host → hostname. -/
def joinServiceHostHostname (db : DB) (vs : List VulnRow)
    (p : HostnameRow → Bool) : List VulnRow :=
  vs.bind fun v =>
    (db.services.filter (fun s => v.service_id == some s.id)).bind fun s =>
      (db.hosts.filter (fun h => s.host_id == h.id)).bind fun h =>
        (db.hostnames.filter (fun hn => hn.host_id == h.id && p hn)).map fun _ => v

/-- SQL `UNION` of two entity queries: all rows of both, made distinct. -/
def sqlUnion (a b : List VulnRow) : List VulnRow := (a ++ b).dedup

/-- `vulns.join(Host).join(Service).filter(Host.os == os_value)`: the OS
re-application join of the `host__os` workaround. -/
def joinHostServiceOs (db : DB) (vs : List VulnRow) (osv : String) :
    List VulnRow :=
  vs.bind fun v =>
    (db.hosts.filter (fun h => v.host_id == some h.id)).bind fun h =>
      (db.services.filter (fun s => s.host_id == h.id)).bind fun _ =>
        if h.os == osv then [v] else []

/-- Embedding of `VulnerabilityView._generate_filter_query`
(vulns.py lines 834-869).  The generic filter-tree translator
`search(db.session, vulnerability_class, filters)` is an external
collaborator and is passed in as the function `search`; the workspace is
its id.  Steps, in source order: scan the TOP-LEVEL node list for
`host__os` predicates and, if any, remove them all; run the translator;
scope to the workspace; if hostname predicates were extracted, union the
host path with the service path; if a `host__os` predicate was found,
re-apply the FIRST one through the Host/Service join.  (The final
`options(joinedload(...))` block only tunes eager loading and does not
change the row set.) -/
def generate_filter_query (search : FiltersDict → List VulnRow) (db : DB)
    (filters : FiltersDict) (hostname_filters_arg : List LeafPred)
    (workspace : Nat) : List VulnRow :=
  let hosts_os_filter := filters.filters.filter
    (fun n => nodeName n == some "host__os")
  let filters1 :=
    if hosts_os_filter.isEmpty then filters
    else { filters with
           filters := filters.filters.filter
             (fun n => nodeName n != some "host__os") }
  let vulns := (search filters1).filter (fun v => v.workspace_id == workspace)
  let vulns1 :=
    if hostname_filters_arg.isEmpty then vulns
    else
      sqlUnion (joinHostHostname db vulns (hostnameOrMatch hostname_filters_arg))
        (joinServiceHostHostname db vulns (hostnameOrMatch hostname_filters_arg))
  if hosts_os_filter.isEmpty then vulns1
  else joinHostServiceOs db vulns1
    (nodeVal (hosts_os_filter.headD (Node.leaf ⟨"", "", "", none⟩)))

lemma mem_joinHostHostname {db : DB} {vs : List VulnRow} {p : HostnameRow → Bool}
    {v : VulnRow} :
    v ∈ joinHostHostname db vs p ↔
      v ∈ vs ∧ ∃ h ∈ db.hosts, v.host_id = some h.id ∧
        ∃ hn ∈ db.hostnames, hn.host_id = h.id ∧ p hn = true := by
  simp only [joinHostHostname, List.mem_bind, List.mem_map, List.mem_filter,
    Bool.and_eq_true, beq_iff_eq]
  constructor
  · rintro ⟨a, ha, h, ⟨hh, hhid⟩, hn, ⟨hhn, hnid, hp⟩, rfl⟩
    exact ⟨ha, h, hh, hhid, hn, hhn, hnid, hp⟩
  · rintro ⟨hv, h, hh, hhid, hn, hhn, hnid, hp⟩
    exact ⟨v, hv, h, ⟨hh, hhid⟩, hn, ⟨hhn, hnid, hp⟩, rfl⟩

lemma mem_joinServiceHostHostname {db : DB} {vs : List VulnRow}
    {p : HostnameRow → Bool} {v : VulnRow} :
    v ∈ joinServiceHostHostname db vs p ↔
      v ∈ vs ∧ ∃ s ∈ db.services, v.service_id = some s.id ∧
        ∃ h ∈ db.hosts, s.host_id = h.id ∧
          ∃ hn ∈ db.hostnames, hn.host_id = h.id ∧ p hn = true := by
  simp only [joinServiceHostHostname, List.mem_bind, List.mem_map,
    List.mem_filter, Bool.and_eq_true, beq_iff_eq]
  constructor
  · rintro ⟨a, ha, s, ⟨hs, hsid⟩, h, ⟨hh, hhid⟩, hn, ⟨hhn, hnid, hp⟩, rfl⟩
    exact ⟨ha, s, hs, hsid, h, hh, hhid, hn, hhn, hnid, hp⟩
  · rintro ⟨hv, s, hs, hsid, h, hh, hhid, hn, hhn, hnid, hp⟩
    exact ⟨v, hv, s, ⟨hs, hsid⟩, h, ⟨hh, hhid⟩, hn, ⟨hhn, hnid, hp⟩, rfl⟩

lemma mem_joinHostServiceOs {db : DB} {vs : List VulnRow} {osv : String}
    {v : VulnRow} :
    v ∈ joinHostServiceOs db vs osv ↔
      v ∈ vs ∧ ∃ h ∈ db.hosts, v.host_id = some h.id ∧ h.os = osv ∧
        ∃ s ∈ db.services, s.host_id = h.id := by
  simp only [joinHostServiceOs, List.mem_bind, List.mem_filter, beq_iff_eq]
  constructor
  · rintro ⟨a, ha, h, ⟨hh, hhid⟩, s, ⟨hs, hsid⟩, hmem⟩
    split at hmem
    · simp only [List.mem_singleton] at hmem
      subst hmem
      rename_i hos
      exact ⟨ha, h, hh, hhid, by simpa using hos, s, hs, hsid⟩
    · simp at hmem
  · rintro ⟨hv, h, hh, hhid, hos, s, hs, hsid⟩
    exact ⟨v, hv, h, ⟨hh, hhid⟩, s, ⟨hs, hsid⟩, by simp [hos]⟩

lemma mem_sqlUnion {a b : List VulnRow} {v : VulnRow} :
    v ∈ sqlUnion a b ↔ v ∈ a ∨ v ∈ b := by
  simp [sqlUnion, List.mem_dedup]

/-- Every row of every stage of the synthesized query lies in the
workspace-filtered base query. -/
lemma generate_filter_query_subset (search : FiltersDict → List VulnRow)
    (db : DB) (filters : FiltersDict) (hfs : List LeafPred) (ws : Nat)
    (v : VulnRow) (hv : v ∈ generate_filter_query search db filters hfs ws) :
    v.workspace_id = ws := by
  simp only [generate_filter_query] at hv
  split at hv
  case isTrue =>
    split at hv
    case isTrue =>
      simp only [List.mem_filter, beq_iff_eq] at hv
      exact hv.2
    case isFalse =>
      rw [mem_sqlUnion] at hv
      rcases hv with hv | hv
      · have := (mem_joinHostHostname.mp hv).1
        simp only [List.mem_filter, beq_iff_eq] at this
        exact this.2
      · have := (mem_joinServiceHostHostname.mp hv).1
        simp only [List.mem_filter, beq_iff_eq] at this
        exact this.2
  case isFalse =>
    have hv1 := (mem_joinHostServiceOs.mp hv).1
    split at hv1
    case isTrue =>
      simp only [List.mem_filter, beq_iff_eq] at hv1
      exact hv1.2
    case isFalse =>
      rw [mem_sqlUnion] at hv1
      rcases hv1 with hv1 | hv1
      · have := (mem_joinHostHostname.mp hv1).1
        simp only [List.mem_filter, beq_iff_eq] at this
        exact this.2
      · have := (mem_joinServiceHostHostname.mp hv1).1
        simp only [List.mem_filter, beq_iff_eq] at this
        exact this.2

/-- C2. Workspace scoping is a hard boundary: for every translator
result, every database, every filter tree, every extracted hostname
predicate list and every workspace, each row returned by
`_generate_filter_query` belongs to the workspace passed in — rows of
other workspaces are never returned, whatever the filters say. -/
theorem generateFilterQuery_workspace_scoped
    (search : FiltersDict → List VulnRow) (db : DB) (filters : FiltersDict)
    (hfs : List LeafPred) (ws : Nat) :
    ∀ v ∈ generate_filter_query search db filters hfs ws,
      v.workspace_id = ws :=
  fun v hv => generate_filter_query_subset search db filters hfs ws v hv

/-- C2 witness: a concrete run in which the translator even offers a row
of a foreign workspace; the returned row is in workspace 1. -/
theorem generateFilterQuery_workspace_scoped_witness :
    (⟨1, 1, none, none, "high", "n", []⟩ : VulnRow).workspace_id = 1 :=
  generateFilterQuery_workspace_scoped
    (fun _ => [⟨1, 1, none, none, "high", "n", []⟩,
               ⟨2, 7, none, none, "low", "m", []⟩])
    ⟨[], [], [], []⟩ ⟨[], none, none, none⟩ [] 1
    ⟨1, 1, none, none, "high", "n", []⟩ (by decide)

/-- A vulnerability row matches the hostname condition through its own
host: Host → Hostname with a hostname accepted by `p`. -/
def hostPathMatch (db : DB) (p : HostnameRow → Bool) (v : VulnRow) : Prop :=
  ∃ h ∈ db.hosts, v.host_id = some h.id ∧
    ∃ hn ∈ db.hostnames, hn.host_id = h.id ∧ p hn = true

/-- A vulnerability row matches the hostname condition through its
service: Service → Host → Hostname with a hostname accepted by `p`. -/
def servicePathMatch (db : DB) (p : HostnameRow → Bool) (v : VulnRow) : Prop :=
  ∃ s ∈ db.services, v.service_id = some s.id ∧
    ∃ h ∈ db.hosts, s.host_id = h.id ∧
      ∃ hn ∈ db.hostnames, hn.host_id = h.id ∧ p hn = true

/-- C3. With a non-empty extracted hostname predicate list (and no
`host__os` workaround in play), the synthesized query is exactly the SQL
UNION of the direct Host→Hostname path and the Service→Host→Hostname
path over the workspace-scoped base query, the hostname condition is the
OR-combination of `Hostname.name == val` over the extracted values, a row
is returned iff it matches via either (or both) paths, and — provided the
translator returns rows of the vulnerability table and ids are primary
keys — no entity id appears twice. -/
theorem generateFilterQuery_hostname_union
    (search : FiltersDict → List VulnRow) (db : DB) (f : FiltersDict)
    (hfs : List LeafPred) (ws : Nat)
    (hne : hfs ≠ [])
    (hos : f.filters.filter (fun n => nodeName n == some "host__os") = [])
    (hsub : ∀ v ∈ search f, v ∈ db.vulns)
    (hpk : ∀ v ∈ db.vulns, ∀ w ∈ db.vulns, v.id = w.id → v = w) :
    generate_filter_query search db f hfs ws
      = sqlUnion
          (joinHostHostname db
            ((search f).filter (fun v => v.workspace_id == ws))
            (hostnameOrMatch hfs))
          (joinServiceHostHostname db
            ((search f).filter (fun v => v.workspace_id == ws))
            (hostnameOrMatch hfs))
    ∧ (∀ v, v ∈ generate_filter_query search db f hfs ws ↔
        (v ∈ search f ∧ v.workspace_id = ws ∧
          (hostPathMatch db (hostnameOrMatch hfs) v
            ∨ servicePathMatch db (hostnameOrMatch hfs) v)))
    ∧ ((generate_filter_query search db f hfs ws).map (fun v => v.id)).Nodup
    ∧ (∀ hn : HostnameRow,
        hostnameOrMatch hfs hn = true ↔ ∃ fl ∈ hfs, hn.name = fl.val) := by
  have hosEmpty : (f.filters.filter
      (fun n => nodeName n == some "host__os")).isEmpty = true := by
    rw [hos]; rfl
  have hfsEmpty : hfs.isEmpty = false := by
    cases hfs with
    | nil => exact absurd rfl hne
    | cons a l => rfl
  have heq : generate_filter_query search db f hfs ws
      = sqlUnion
          (joinHostHostname db
            ((search f).filter (fun v => v.workspace_id == ws))
            (hostnameOrMatch hfs))
          (joinServiceHostHostname db
            ((search f).filter (fun v => v.workspace_id == ws))
            (hostnameOrMatch hfs)) := by
    simp only [generate_filter_query, hosEmpty, hfsEmpty, if_true, if_false,
      Bool.false_eq_true]
  refine ⟨heq, ?_, ?_, ?_⟩
  · intro v
    rw [heq, mem_sqlUnion, mem_joinHostHostname, mem_joinServiceHostHostname]
    simp only [List.mem_filter, beq_iff_eq, hostPathMatch, servicePathMatch]
    constructor
    · rintro (⟨⟨hvs, hws⟩, hpath⟩ | ⟨⟨hvs, hws⟩, hpath⟩)
      · exact ⟨hvs, hws, Or.inl hpath⟩
      · exact ⟨hvs, hws, Or.inr hpath⟩
    · rintro ⟨hvs, hws, hpath | hpath⟩
      · exact Or.inl ⟨⟨hvs, hws⟩, hpath⟩
      · exact Or.inr ⟨⟨hvs, hws⟩, hpath⟩
  · rw [heq]
    refine List.Nodup.map_on ?_ (List.nodup_dedup _)
    intro x hx y hy hxy
    have hx' : x ∈ db.vulns := by
      rw [mem_sqlUnion] at hx
      rcases hx with hx | hx
      · exact hsub x (List.mem_filter.mp (mem_joinHostHostname.mp hx).1).1
      · exact hsub x
          (List.mem_filter.mp (mem_joinServiceHostHostname.mp hx).1).1
    have hy' : y ∈ db.vulns := by
      rw [mem_sqlUnion] at hy
      rcases hy with hy | hy
      · exact hsub y (List.mem_filter.mp (mem_joinHostHostname.mp hy).1).1
      · exact hsub y
          (List.mem_filter.mp (mem_joinServiceHostHostname.mp hy).1).1
    exact hpk x hx' y hy' hxy
  · intro hn
    simp only [hostnameOrMatch, List.any_eq_true, beq_iff_eq]

/-- C3 witness: one vulnerability reachable through BOTH paths (its host
directly and its service's host) is returned exactly once. -/
theorem generateFilterQuery_hostname_union_witness :
    ((generate_filter_query
        (fun _ => [⟨1, 1, some 10, some 20, "high", "n", []⟩])
        ⟨[⟨1, 1, some 10, some 20, "high", "n", []⟩],
         [⟨10, "linux"⟩], [⟨20, 10⟩], [⟨5, 10, "a.com"⟩]⟩
        ⟨[], none, none, none⟩ [⟨"hostnames", "==", "a.com", none⟩] 1).map
      (fun v => v.id)).Nodup := by
  have h := generateFilterQuery_hostname_union
    (fun _ => [⟨1, 1, some 10, some 20, "high", "n", []⟩])
    ⟨[⟨1, 1, some 10, some 20, "high", "n", []⟩],
     [⟨10, "linux"⟩], [⟨20, 10⟩], [⟨5, 10, "a.com"⟩]⟩
    ⟨[], none, none, none⟩ [⟨"hostnames", "==", "a.com", none⟩] 1
    (by decide) (by rfl) (by decide) (by decide)
  exact h.2.2.1

/-- Deep detector: does the tree contain a `host__os` leaf at any depth?
Used to observe what the generic translator is handed. -/
def containsHostOs : List Node → Bool
  | [] => false
  | .leaf l :: rest => (l.name == "host__os") || containsHostOs rest
  | .orN cs :: rest => containsHostOs cs || containsHostOs rest
  | .andN cs :: rest => containsHostOs cs || containsHostOs rest

/-- C6 counterexample. A `host__os` predicate nested inside an `and`
group is NOT extracted: the top-level scan `filters.get('filters', [])`
with `host_os_filter.get('name')` sees only direct children.  With a
translator that returns a row exactly when its input still contains a
`host__os` leaf, and an empty database (so the OS re-application join
could only ever produce `[]`), the query still returns the row: the
predicate reached the translator un-removed and no OS join was applied. -/
theorem generateFilterQuery_os_claim_counterexample :
    containsHostOs [Node.andN [Node.leaf ⟨"host__os", "==", "Linux", none⟩]]
      = true
    ∧ generate_filter_query
        (fun fd => if containsHostOs fd.filters
          then [⟨1, 1, none, none, "high", "n", []⟩] else [])
        ⟨[], [], [], []⟩
        ⟨[Node.andN [Node.leaf ⟨"host__os", "==", "Linux", none⟩]],
          none, none, none⟩
        [] 1
      = [⟨1, 1, none, none, "high", "n", []⟩]
    ∧ joinHostServiceOs ⟨[], [], [], []⟩
        [⟨1, 1, none, none, "high", "n", []⟩] "Linux" = [] := by
  refine ⟨by simp [containsHostOs], ?_, by simp [joinHostServiceOs]⟩
  simp [generate_filter_query, containsHostOs, nodeName]

/-- C6 (amended). Exactly the TOP-LEVEL `host__os` predicates (direct
elements of the `filters` list, not those nested inside `and`/`or`
groups) are extracted: all of them are removed from the tree before the
remaining tree is handed to the generic translator (the scrubbed tree
contains no top-level `host__os` predicate), and when at least one was
present the FIRST one's OS condition is re-applied afterwards by joining
through Host/Service and filtering by its OS value. -/
theorem generateFilterQuery_os_extraction
    (search : FiltersDict → List VulnRow) (db : DB) (f : FiltersDict)
    (hfs : List LeafPred) (ws : Nat)
    (hos : f.filters.filter (fun n => nodeName n == some "host__os") ≠ []) :
    generate_filter_query search db f hfs ws
      = joinHostServiceOs db
          (generate_filter_query search db
            { f with filters :=
                f.filters.filter (fun n => nodeName n != some "host__os") }
            hfs ws)
          (nodeVal ((f.filters.filter
              (fun n => nodeName n == some "host__os")).headD
            (Node.leaf ⟨"", "", "", none⟩)))
    ∧ (f.filters.filter (fun n => nodeName n != some "host__os")).filter
        (fun n => nodeName n == some "host__os") = []
    ∧ (∀ v ∈ generate_filter_query search db f hfs ws,
        ∃ h ∈ db.hosts, v.host_id = some h.id ∧
          h.os = nodeVal ((f.filters.filter
              (fun n => nodeName n == some "host__os")).headD
            (Node.leaf ⟨"", "", "", none⟩)) ∧
          ∃ s ∈ db.services, s.host_id = h.id) := by
  have hscrub : (f.filters.filter (fun n => nodeName n != some "host__os")).filter
      (fun n => nodeName n == some "host__os") = [] := by
    rw [List.filter_eq_nil]
    intro a ha
    have := (List.mem_filter.mp ha).2
    simpa using this
  have hosEmpty : (f.filters.filter
      (fun n => nodeName n == some "host__os")).isEmpty = false := by
    cases hcase : f.filters.filter (fun n => nodeName n == some "host__os") with
    | nil => exact absurd hcase hos
    | cons a l => rfl
  have hscrubEmpty : ((f.filters.filter
        (fun n => nodeName n != some "host__os")).filter
      (fun n => nodeName n == some "host__os")).isEmpty = true := by
    rw [hscrub]; rfl
  have heq : generate_filter_query search db f hfs ws
      = joinHostServiceOs db
          (generate_filter_query search db
            { f with filters :=
                f.filters.filter (fun n => nodeName n != some "host__os") }
            hfs ws)
          (nodeVal ((f.filters.filter
              (fun n => nodeName n == some "host__os")).headD
            (Node.leaf ⟨"", "", "", none⟩))) := by
    conv_lhs => rw [generate_filter_query]
    conv_rhs => rw [generate_filter_query]
    simp only [hosEmpty, hscrubEmpty, if_true, if_false, Bool.false_eq_true]
  refine ⟨heq, hscrub, ?_⟩
  intro v hv
  rw [heq] at hv
  have := mem_joinHostServiceOs.mp hv
  exact this.2

/-- C6 witness: a concrete tree with one top-level `host__os` predicate
and one severity predicate; the amended statement's hypothesis holds. -/
theorem generateFilterQuery_os_extraction_witness :
    (([Node.leaf ⟨"host__os", "==", "Linux", none⟩,
       Node.leaf ⟨"severity", "==", "high", none⟩] : List Node).filter
        (fun n => nodeName n != some "host__os")).filter
      (fun n => nodeName n == some "host__os") = [] :=
  (generateFilterQuery_os_extraction
    (fun _ => []) ⟨[], [], [], []⟩
    ⟨[Node.leaf ⟨"host__os", "==", "Linux", none⟩,
      Node.leaf ⟨"severity", "==", "high", none⟩], none, none, none⟩
    [] 1 (by simp [nodeName])).2.1

/-! ## The filter orchestrator `_filter`

`_filter` parses the payload (marshmallow + `json.loads`, external: the
outcome is passed in as an `Except`), splits out hostname predicates,
branches on `group_by`, and in the non-grouped branch pops
`offset`/`limit`, builds the query, paginates and serializes.  A
SQLAlchemy query with `.limit`/`.offset` clauses is modelled by
`PagedQuery`; SQL applies OFFSET before LIMIT whatever the order the
clauses were attached in. -/

structure HttpError where
  code : Nat
  message : String
deriving DecidableEq, Repr

/-- Python truthiness of the popped `limit`/`offset` values: `if limit:`
is false for an absent key and for `0`. -/
def truthyNat : Option Nat → Bool
  | none => false
  | some n => n != 0

/-- A query with optional LIMIT/OFFSET clauses attached. -/
structure PagedQuery where
  rows : List VulnRow
  lim : Option Nat
  off : Option Nat

/-- Row set of a paged query: skip OFFSET rows, then cap at LIMIT. -/
def evalPaged (q : PagedQuery) : List VulnRow :=
  let dropped := q.rows.drop (q.off.getD 0)
  match q.lim with
  | none => dropped
  | some l => dropped.take l

/-- Marshmallow dump of one row with an `exclude` list
(`{'many': True, 'context': {}, 'exclude': ('_attachments',)}`): the
serialized fields minus the excluded ones. -/
def serializeVuln (excl : List String) (v : VulnRow) : List (String × String) :=
  ([("_id", toString v.id), ("name", v.vname), ("severity", v.severity),
    ("_attachments", String.intercalate "," v.attachments)]).filter
    (fun kv => !(excl.contains kv.1))

/-- Embedding of `VulnerabilityView._filter` (vulns.py lines 871-919).
The parse step (`FlaskRestlessSchema().load(json.loads(filters))`) is
external; its outcome arrives as `parsed`.  A `ValidationError` or
`JSONDecodeError` aborts with 400 "Invalid filters".  Otherwise the
hostname predicates are split out (`if filters:` is skipped here: on the
empty dict the split is the identity, so the branch is behaviorally
inlined), and:
  - non-grouped (`'group_by' not in filters`): pop `offset` then `limit`,
    build the query from the popped dict, keep the unpopped query for the
    count, attach LIMIT/OFFSET only when truthy, serialize excluding
    `_attachments`, return `(rows, unpaginated count)`;
  - grouped: build the query from the un-popped dict and delegate to
    `get_filtered_data` (external, passed as `gd`). -/
def filterEndpoint (search : FiltersDict → List VulnRow)
    (gd : FiltersDict → List VulnRow → List (List (String × String)) × Nat)
    (db : DB) (ws : Nat) (parsed : Except String FiltersDict) :
    Except HttpError (List (List (String × String)) × Nat) :=
  match parsed with
  | .error _ => .error ⟨400, "Invalid filters"⟩
  | .ok filters0 =>
    let split := hostname_filters filters0.filters
    let hostname_fs := split.2
    let filters1 := { filters0 with filters := split.1 }
    if filters1.group_by.isNone then
      let offset := filters1.offset
      let limit := filters1.limit
      let filters2 := { filters1 with offset := none, limit := none }
      let vulns := generate_filter_query search db filters2 hostname_fs ws
      let q0 : PagedQuery := ⟨vulns, none, none⟩
      let q1 := if truthyNat limit then { q0 with lim := limit } else q0
      let q2 := if truthyNat offset then { q1 with off := offset } else q1
      .ok ((evalPaged q2).map (serializeVuln ["_attachments"]), vulns.length)
    else
      .ok (gd filters1 (generate_filter_query search db filters1 hostname_fs ws))

/-- The non-grouped branch in closed form: for every `limit`/`offset`
pair in the payload, the query is built from the dict with both keys
popped, pagination clauses are attached only when truthy, and the count
is always the unpaginated one. -/
lemma filterEndpoint_nonGrouped_eq (search : FiltersDict → List VulnRow)
    (gd : FiltersDict → List VulnRow → List (List (String × String)) × Nat)
    (db : DB) (ws : Nat) (f : FiltersDict) (hgb : f.group_by = none)
    (l o : Option Nat) :
    filterEndpoint search gd db ws (.ok { f with limit := l, offset := o })
      = .ok ((evalPaged
          ⟨generate_filter_query search db
              ⟨(hostname_filters f.filters).1, none, none, none⟩
              (hostname_filters f.filters).2 ws,
            if truthyNat l then l else none,
            if truthyNat o then o else none⟩).map
          (serializeVuln ["_attachments"]),
        (generate_filter_query search db
            ⟨(hostname_filters f.filters).1, none, none, none⟩
            (hostname_filters f.filters).2 ws).length) := by
  cases f with
  | mk ffilters fgb flim foff =>
    simp only at hgb
    subst hgb
    simp only [filterEndpoint, Option.isNone_none, if_true]
    cases htl : truthyNat l <;> cases hto : truthyNat o <;>
      simp [htl, hto]

lemma serializeVuln_excludes (excl : List String) (v : VulnRow)
    (kv : String × String) (hkv : kv ∈ serializeVuln excl v) :
    ¬ kv.1 ∈ excl := by
  have := (List.mem_filter.mp hkv).2
  simpa using this

/-- C5. For every payload without `group_by`, `_filter` pops `offset` and
`limit` out of the dict before building the query (the query is built
from the dict with both keys gone), returns `(rows, total)` with `total`
the unpaginated count of the query, applies the pagination clauses only
to the serialized rows, serializes with `_attachments` excluded, and the
returned count does not depend on `limit`/`offset`. -/
theorem filterNonGrouped_pagination (search : FiltersDict → List VulnRow)
    (gd : FiltersDict → List VulnRow → List (List (String × String)) × Nat)
    (db : DB) (ws : Nat) (f : FiltersDict) (hgb : f.group_by = none) :
    (∀ l o : Option Nat,
      filterEndpoint search gd db ws (.ok { f with limit := l, offset := o })
        = .ok ((evalPaged
            ⟨generate_filter_query search db
                ⟨(hostname_filters f.filters).1, none, none, none⟩
                (hostname_filters f.filters).2 ws,
              if truthyNat l then l else none,
              if truthyNat o then o else none⟩).map
            (serializeVuln ["_attachments"]),
          (generate_filter_query search db
              ⟨(hostname_filters f.filters).1, none, none, none⟩
              (hostname_filters f.filters).2 ws).length))
    ∧ (∀ v : VulnRow, ∀ kv ∈ serializeVuln ["_attachments"] v,
        kv.1 ≠ "_attachments") := by
  refine ⟨fun l o => filterEndpoint_nonGrouped_eq search gd db ws f hgb l o, ?_⟩
  intro v kv hkv
  have := serializeVuln_excludes ["_attachments"] v kv hkv
  simpa using this

/-- C5 witness: concrete run with `limit = 1`, `offset = 1` over a
two-row result; the count stays 2 while one row is serialized. -/
theorem filterNonGrouped_pagination_witness :
    filterEndpoint
        (fun _ => [⟨1, 1, none, none, "high", "n", []⟩,
                   ⟨2, 1, none, none, "low", "m", []⟩])
        (fun _ _ => ([], 0)) ⟨[], [], [], []⟩ 1
        (.ok ⟨[], none, some 1, some 1⟩)
      = .ok ([serializeVuln ["_attachments"]
              ⟨2, 1, none, none, "low", "m", []⟩], 2) := by
  have h := (filterNonGrouped_pagination
    (fun _ => [⟨1, 1, none, none, "high", "n", []⟩,
               ⟨2, 1, none, none, "low", "m", []⟩])
    (fun _ _ => ([], 0)) ⟨[], [], [], []⟩ 1
    ⟨[], none, none, none⟩ rfl).1 (some 1) (some 1)
  rw [show (⟨[], none, some 1, some 1⟩ : FiltersDict)
      = { (⟨[], none, none, none⟩ : FiltersDict) with
          limit := some 1, offset := some 1 } from rfl]
  rw [h]
  simp [hostname_filters, generate_filter_query, evalPaged, truthyNat]

/-- C7. A payload whose parse fails (malformed JSON or schema validation
failure) makes `_filter` abort with HTTP 400 "Invalid filters", and no
query is executed: the outcome is the same whatever the translator, the
aggregator, the database or the workspace. -/
theorem filterInvalid_aborts400 :
    ∀ (s1 s2 : FiltersDict → List VulnRow)
      (g1 g2 : FiltersDict → List VulnRow → List (List (String × String)) × Nat)
      (d1 d2 : DB) (w1 w2 : Nat) (e : String),
      filterEndpoint s1 g1 d1 w1 (.error e) = .error ⟨400, "Invalid filters"⟩
      ∧ filterEndpoint s1 g1 d1 w1 (.error e)
        = filterEndpoint s2 g2 d2 w2 (.error e) :=
  fun _ _ _ _ _ _ _ _ _ => ⟨rfl, rfl⟩

/-- C9. In the non-grouped path, `limit` and `offset` are applied only
when truthy: a popped value of `0` attaches no LIMIT/OFFSET clause, and
the result is identical to the result for an absent key; with both at
`0` the full unpaginated row set is serialized. -/
theorem filterZeroPagination_noop (search : FiltersDict → List VulnRow)
    (gd : FiltersDict → List VulnRow → List (List (String × String)) × Nat)
    (db : DB) (ws : Nat) (f : FiltersDict) (hgb : f.group_by = none) :
    (∀ o : Option Nat,
      filterEndpoint search gd db ws
          (.ok { f with limit := some 0, offset := o })
        = filterEndpoint search gd db ws (.ok { f with limit := none, offset := o }))
    ∧ (∀ l : Option Nat,
      filterEndpoint search gd db ws
          (.ok { f with limit := l, offset := some 0 })
        = filterEndpoint search gd db ws (.ok { f with limit := l, offset := none }))
    ∧ filterEndpoint search gd db ws
          (.ok { f with limit := some 0, offset := some 0 })
        = .ok ((generate_filter_query search db
              ⟨(hostname_filters f.filters).1, none, none, none⟩
              (hostname_filters f.filters).2 ws).map
            (serializeVuln ["_attachments"]),
          (generate_filter_query search db
              ⟨(hostname_filters f.filters).1, none, none, none⟩
              (hostname_filters f.filters).2 ws).length) := by
  refine ⟨?_, ?_, ?_⟩
  · intro o
    rw [filterEndpoint_nonGrouped_eq search gd db ws f hgb (some 0) o,
      filterEndpoint_nonGrouped_eq search gd db ws f hgb none o]
    simp [truthyNat]
  · intro l
    rw [filterEndpoint_nonGrouped_eq search gd db ws f hgb l (some 0),
      filterEndpoint_nonGrouped_eq search gd db ws f hgb l none]
    simp [truthyNat]
  · rw [filterEndpoint_nonGrouped_eq search gd db ws f hgb (some 0) (some 0)]
    simp [evalPaged, truthyNat]

/-- C9 witness: with `limit = 0` and `offset = 0` the full two-row set
comes back serialized, as for absent keys. -/
theorem filterZeroPagination_noop_witness :
    filterEndpoint
        (fun _ => [⟨1, 1, none, none, "high", "n", []⟩,
                   ⟨2, 1, none, none, "low", "m", []⟩])
        (fun _ _ => ([], 0)) ⟨[], [], [], []⟩ 1
        (.ok ⟨[], none, some 0, some 0⟩)
      = .ok ([serializeVuln ["_attachments"] ⟨1, 1, none, none, "high", "n", []⟩,
              serializeVuln ["_attachments"] ⟨2, 1, none, none, "low", "m", []⟩],
             2) := by
  have h := (filterZeroPagination_noop
    (fun _ => [⟨1, 1, none, none, "high", "n", []⟩,
               ⟨2, 1, none, none, "low", "m", []⟩])
    (fun _ _ => ([], 0)) ⟨[], [], [], []⟩ 1
    ⟨[], none, none, none⟩ rfl).2.2
  rw [show (⟨[], none, some 0, some 0⟩ : FiltersDict)
      = { (⟨[], none, none, none⟩ : FiltersDict) with
          limit := some 0, offset := some 0 } from rfl]
  rw [h]
  simp [hostname_filters, generate_filter_query]

/-! ## The `count` endpoint's severity relabeling (vulns.py lines 672-706)

A result group of the grouped count is a dict with a `severity` entry, a
possibly absent `name` entry and a count; `convert_group` copies it and
assigns `severity_map.get(severity, severity)` to BOTH keys. -/

structure SevGroup where
  severity : String
  gname : Option String
  count : Nat
deriving DecidableEq, Repr

/-- `severity_map.get(severity, severity)` with
`severity_map = {"informational": "info", "medium": "med"}`. -/
def severityMapGet (s : String) : String :=
  if s = "informational" then "info" else if s = "medium" then "med" else s

/-- `convert_group`: copy the group and set both `severity` and `name` to
the mapped severity. -/
def convert_group (g : SevGroup) : SevGroup :=
  { g with severity := severityMapGet g.severity,
           gname := some (severityMapGet g.severity) }

/-- The tail of `VulnerabilityView.count`: the groups of the superclass
result are rewritten only when the `group_by` GET parameter is
`severity`. -/
def countGroups (group_by : Option String) (groups : List SevGroup) :
    List SevGroup :=
  if group_by == some "severity" then groups.map convert_group else groups

/-- C4. When counting with `group_by == 'severity'`, every result group
gets `informational` rewritten to `info` and `medium` to `med`, the same
rewritten value is assigned to both the `severity` and the `name` entry
of the group, every other severity passes through into both entries
unchanged, and no rewrite happens for any other `group_by`. -/
theorem countSeverity_relabels (groups : List SevGroup) :
    countGroups (some "severity") groups = groups.map convert_group
    ∧ (∀ g : SevGroup,
        (convert_group g).severity = severityMapGet g.severity
        ∧ (convert_group g).gname = some (severityMapGet g.severity)
        ∧ (convert_group g).count = g.count)
    ∧ severityMapGet "informational" = "info"
    ∧ severityMapGet "medium" = "med"
    ∧ (∀ s : String, s ≠ "informational" → s ≠ "medium" → severityMapGet s = s)
    ∧ (∀ gb : Option String, gb ≠ some "severity" →
        countGroups gb groups = groups) := by
  refine ⟨by simp [countGroups], fun g => ⟨rfl, rfl, rfl⟩, rfl, rfl, ?_, ?_⟩
  · intro s h1 h2
    simp [severityMapGet, h1, h2]
  · intro gb hgb
    have : (gb == some "severity") = false := by
      cases gb with
      | none => rfl
      | some s =>
        simp only [Option.some.injEq, ne_eq] at hgb
        simpa using hgb
    simp [countGroups, this]

/-- C4 witness: the relabeling applied to one `informational` and one
`high` group, and the pass-through discharged at `"high"`. -/
theorem countSeverity_relabels_witness :
    countGroups (some "severity")
        [⟨"informational", none, 3⟩, ⟨"high", some "high", 2⟩]
      = [⟨"info", some "info", 3⟩, ⟨"high", some "high", 2⟩]
    ∧ severityMapGet "high" = "high" := by
  have h := countSeverity_relabels
    [⟨"informational", none, 3⟩, ⟨"high", some "high", 2⟩]
  exact ⟨h.1.trans (by decide), h.2.2.2.2.1 "high" (by decide) (by decide)⟩

/-! ## Bulk delete (vulns.py lines 1103-1125)

`bulk_delete` dispatches on the PRESENCE of a `severities` key in the
request JSON; `_bulk_delete_query` filters the vulnerability table by
`id.in_` (default) or `severity.in_` (`by='severity'`), then always
restricts to the addressed workspace. -/

/-- The request body of `DELETE /vulns`: a list under `ids` and/or a list
under `severities` (`none` = key absent). -/
structure BulkDeleteBody where
  ids : List Nat
  severities : Option (List String)

/-- The values handed to `_bulk_delete_query`: ids in the default mode
(`kwargs.get("by", "id")`), severity strings when `by='severity'`. -/
inductive BulkVals where
  | byIds : List Nat → BulkVals
  | bySeverities : List String → BulkVals

/-- Embedding of `VulnerabilityView._bulk_delete_query`: filter by id or
severity membership, then by the addressed workspace. -/
def bulk_delete_query (db : DB) (vals : BulkVals) (workspace : Nat) :
    List VulnRow :=
  let query := match vals with
    | .byIds l => db.vulns.filter (fun (v : VulnRow) => l.contains v.id)
    | .bySeverities l =>
        db.vulns.filter (fun (v : VulnRow) => l.contains v.severity)
  query.filter (fun v => v.workspace_id == workspace)

/-- Embedding of `VulnerabilityView.bulk_delete`'s dispatch combined with
the query above: a missing body or a body without a `severities` key goes
to the default delete-by-ids mode (the mixin's `bulk_delete`, whose
perform step ends in `_bulk_delete_query` with `by` unset).
Modelled from the spec for the mixin half (the class
`BulkDeleteWorkspacedMixin` is not part of the sources): "Bulk delete
accepts either a list of ids (default) or a list of severities (alternate
mode activated by presence of a `severities` key in the request body)". -/
def bulk_delete_selected (db : DB) (body : Option BulkDeleteBody)
    (workspace : Nat) : List VulnRow :=
  match body with
  | none => bulk_delete_query db (.byIds []) workspace
  | some b =>
    match b.severities with
    | none => bulk_delete_query db (.byIds b.ids) workspace
    | some sevs => bulk_delete_query db (.bySeverities sevs) workspace

/-- C8. Dispatch is by presence of the `severities` key alone: with it,
exactly the addressed workspace's vulnerabilities whose severity is in
the given list are selected for deletion — none of another workspace,
none with a severity outside the list — and without it the default
delete-by-ids mode runs on the body's ids. -/
theorem bulkDelete_severity_mode (db : DB) (body : BulkDeleteBody)
    (sevs : List String) (ws : Nat) :
    (body.severities = some sevs →
      bulk_delete_selected db (some body) ws
        = bulk_delete_query db (.bySeverities sevs) ws
      ∧ (∀ v : VulnRow,
          v ∈ bulk_delete_query db (.bySeverities sevs) ws ↔
            v ∈ db.vulns ∧ v.severity ∈ sevs ∧ v.workspace_id = ws))
    ∧ (body.severities = none →
      bulk_delete_selected db (some body) ws
        = bulk_delete_query db (.byIds body.ids) ws) := by
  constructor
  · intro hsev
    constructor
    · simp [bulk_delete_selected, hsev]
    · intro v
      simp only [bulk_delete_query, List.mem_filter, beq_iff_eq,
        List.elem_iff]
      tauto
  · intro hsev
    simp [bulk_delete_selected, hsev]

/-- C8 witness: a two-workspace, three-severity database; the body
`{"severities": ["high", "critical"]}` selects exactly the one matching
row of workspace 1. -/
theorem bulkDelete_severity_mode_witness :
    bulk_delete_selected
        ⟨[⟨1, 1, none, none, "high", "a", []⟩,
          ⟨2, 1, none, none, "low", "b", []⟩,
          ⟨3, 2, none, none, "critical", "c", []⟩],
         [], [], []⟩
        (some ⟨[], some ["high", "critical"]⟩) 1
      = [⟨1, 1, none, none, "high", "a", []⟩] := by
  have h := (bulkDelete_severity_mode
    ⟨[⟨1, 1, none, none, "high", "a", []⟩,
      ⟨2, 1, none, none, "low", "b", []⟩,
      ⟨3, 2, none, none, "critical", "c", []⟩],
     [], [], []⟩
    ⟨[], some ["high", "critical"]⟩ ["high", "critical"] 1).1 rfl
  exact h.1.trans (by decide)

/-! ## Attachment storage (vulns.py lines 548-570 and 708-753)

`_process_attachments` replaces every space in the supplied filename with
an underscore and stores `name=Path(filename).stem`,
`filename=Path(filename).name`; the dedicated upload endpoint
`post_attachment` stores the uploaded filename verbatim in both columns.
`Path(...)` is POSIX `pathlib`: `name` is the part after the last `/`,
and `stem` drops the suffix `name[i:]` when `i = name.rfind('.')`
satisfies `0 < i < len(name) - 1`. -/

/-- Python `filename.replace(" ", "_")` (single-character pattern). -/
def replaceSpaces (s : String) : String :=
  String.mk (s.data.map (fun c => if c = ' ' then '_' else c))

/-- Characters of `PurePosixPath(s).name`: the final component, i.e. the
characters after the last `/`. -/
def pyPathNameChars (l : List Char) : List Char :=
  (l.reverse.takeWhile (fun c => c != '/')).reverse

/-- `Path(s).name`. -/
def pyPathName (s : String) : String :=
  String.mk (pyPathNameChars s.data)

/-- `Path(s).stem`: the final component without its suffix, following
CPython's `rfind('.')` rule. -/
def pyPathStem (s : String) : String :=
  let n := pyPathNameChars s.data
  let ktail := (n.reverse.takeWhile (fun c => c != '.')).length
  if ktail = n.length then String.mk n
  else
    let i := n.length - 1 - ktail
    if 0 < i ∧ i < n.length - 1 then String.mk (n.take i) else String.mk n

/-- A `File` row as created by `get_or_create(db.session, File, ...)`. -/
structure StoredFile where
  object_id : Nat
  object_type : String
  name : String
  filename : String
  content : String
deriving DecidableEq, Repr

/-- Embedding of `VulnerabilityView._process_attachments`: for each
`(filename, attachment)` pair of the payload dict, store a `File` row
with the space-to-underscore transformed filename (`name` its stem,
`filename` its final component).  The base64 decoding and the wholesale
deletion of the previous attachment set are outside this claim; the
returned list is the set of rows created. -/
def process_attachments (obj_id : Nat) (attachments : List (String × String)) :
    List StoredFile :=
  attachments.map fun a =>
    let filename := replaceSpaces a.1
    { object_id := obj_id, object_type := "vulnerability",
      name := pyPathStem filename, filename := pyPathName filename,
      content := a.2 }

/-- Embedding of the storing behavior of
`VulnerabilityView.post_attachment`: reject a duplicate filename with
HTTP 400, otherwise store the uploaded filename VERBATIM as both `name`
and `filename` (no space rewriting). -/
def post_attachment (existing : List String) (vuln_id : Nat)
    (uploadedFilename : String) (payload : String) :
    Except HttpError StoredFile :=
  if existing.contains uploadedFilename then
    .error ⟨400, "Evidence already exists in vuln"⟩
  else
    .ok { object_id := vuln_id, object_type := "vulnerability",
          name := uploadedFilename, filename := uploadedFilename,
          content := payload }

lemma replaceSpaces_no_space (s : String) (c : Char)
    (hc : c ∈ (replaceSpaces s).data) : c ≠ ' ' := by
  simp only [replaceSpaces, List.mem_map] at hc
  obtain ⟨a, _, ha⟩ := hc
  subst ha
  split
  · simp
  · assumption

lemma pyPathNameChars_mem {l : List Char} {c : Char}
    (hc : c ∈ pyPathNameChars l) : c ∈ l := by
  simp only [pyPathNameChars, List.mem_reverse] at hc
  exact List.mem_reverse.mp ((List.takeWhile_sublist _).mem hc)

lemma pyPathName_no_space (s : String) (c : Char)
    (hc : c ∈ (pyPathName (replaceSpaces s)).data) : c ≠ ' ' :=
  replaceSpaces_no_space s c (pyPathNameChars_mem hc)

lemma pyPathStem_no_space (s : String) (c : Char)
    (hc : c ∈ (pyPathStem (replaceSpaces s)).data) : c ≠ ' ' := by
  simp only [pyPathStem] at hc
  split at hc
  · exact replaceSpaces_no_space s c (pyPathNameChars_mem hc)
  · split at hc
    · exact replaceSpaces_no_space s c
        (pyPathNameChars_mem (List.mem_of_mem_take hc))
    · exact replaceSpaces_no_space s c (pyPathNameChars_mem hc)

/-- C10. Every attachment stored through create/update
(`_process_attachments`) has its supplied filename's spaces replaced by
underscores — `filename` is the transformed name's final component and
`name` its stem — so neither stored column ever contains a space; the
dedicated upload endpoint instead stores the uploaded filename verbatim
in both columns. -/
theorem processAttachments_underscores (obj_id : Nat)
    (atts : List (String × String)) :
    (∀ f ∈ process_attachments obj_id atts,
      (∃ a ∈ atts, f.filename = pyPathName (replaceSpaces a.1)
        ∧ f.name = pyPathStem (replaceSpaces a.1))
      ∧ (∀ c ∈ f.filename.data, c ≠ ' ')
      ∧ (∀ c ∈ f.name.data, c ≠ ' '))
    ∧ (∀ (existing : List String) (vid : Nat) (fn payload : String)
        (g : StoredFile), post_attachment existing vid fn payload = .ok g →
          g.filename = fn ∧ g.name = fn) := by
  constructor
  · intro f hf
    simp only [process_attachments, List.mem_map] at hf
    obtain ⟨a, ha, rfl⟩ := hf
    refine ⟨⟨a, ha, rfl, rfl⟩, ?_, ?_⟩
    · exact fun c hc => pyPathName_no_space a.1 c hc
    · exact fun c hc => pyPathStem_no_space a.1 c hc
  · intro existing vid fn payload g hg
    simp only [post_attachment] at hg
    split at hg
    · cases hg
    · cases hg
      exact ⟨rfl, rfl⟩

/-- C10 witness: a filename with a space is stored as `my_file.txt` with
stem `my_file` by the create/update path, while the upload endpoint
stores `my file.txt` verbatim. -/
theorem processAttachments_underscores_witness :
    (∀ c ∈ (pyPathName (replaceSpaces "my file.txt")).data, c ≠ ' ')
    ∧ pyPathName (replaceSpaces "my file.txt") = "my_file.txt"
    ∧ pyPathStem (replaceSpaces "my file.txt") = "my_file"
    ∧ (⟨7, "vulnerability", "my file.txt", "my file.txt", "d"⟩
        : StoredFile).filename = "my file.txt" := by
  refine ⟨?_, by decide, by decide, ?_⟩
  · exact (((processAttachments_underscores 7 [("my file.txt", "d")]).1
      ⟨7, "vulnerability", pyPathStem (replaceSpaces "my file.txt"),
        pyPathName (replaceSpaces "my file.txt"), "d"⟩
      (by simp [process_attachments])).2.1)
  · exact ((processAttachments_underscores 7 []).2
      [] 7 "my file.txt" "d"
      ⟨7, "vulnerability", "my file.txt", "my file.txt", "d"⟩ rfl).1
